import Mathlib

/-
  Verification development for the reference-resolution and schema-composition
  core of an OpenAPI processor (src/services/OpenAPIParser.ts).

  The document model is a JSON-like tree.  JavaScript objects are modelled as
  association lists of fields; a field whose value would be `undefined` in
  JavaScript is modelled by absence of the key (every read in the source is an
  `=== undefined` comparison or a spread, for which the two are
  indistinguishable).  The mutable RefCounter is modelled as a function
  `String -> Int` threaded through the operations; recursion in the source that
  is not structurally bounded is modelled with explicit fuel (`none` = the
  computation did not finish within the given fuel), and JavaScript exceptions
  are modelled with `Except String`.
-/

inductive Json where
  | null : Json
  | bool : Bool → Json
  | num : Int → Json
  | str : String → Json
  | arr : List Json → Json
  | obj : List (String × Json) → Json

/-- First-occurrence lookup in an association list (JavaScript objects cannot
have duplicate keys; objects built by the embedding never duplicate keys). -/
def assocFind : List (String × Json) → String → Option Json
  | [], _ => none
  | (k, v) :: rest, key => if k = key then some v else assocFind rest key

/-- JavaScript property assignment on an object literal: an existing key keeps
its position and is updated, a new key is appended at the end.  (JavaScript
objects never hold a key twice, so updating the first occurrence is exact.) -/
def setAssoc {α : Type} : List (String × α) → String → α → List (String × α)
  | [], k, v => [(k, v)]
  | p :: rest, k, v => if p.1 = k then (k, v) :: rest else p :: setAssoc rest k v

/-- Copy fields into an accumulator one by one, as `Object.assign` / object
spread does. -/
def assignFields (init : List (String × Json)) (src : List (String × Json)) :
    List (String × Json) :=
  src.foldl (fun acc p => setAssoc acc p.1 p.2) init

/-- The enumerable own properties a value contributes to `Object.assign` or an
object spread: objects give their fields, arrays and strings their indexed
elements, primitives nothing. -/
def Json.ownFields : Json → List (String × Json)
  | Json.obj fs => fs
  | Json.arr xs => xs.enum.map (fun p => (toString p.1, p.2))
  | Json.str s => s.data.enum.map (fun p => (toString p.1, Json.str (String.mk [p.2])))
  | _ => []

/-- Property read, `x.k` in JavaScript: `undefined` (here `none`) on a
non-object or a missing key. -/
def Json.getField : Json → String → Option Json
  | Json.obj fs, k => assocFind fs k
  | _, _ => none

/-- The object literal spread of two values: first the own fields of `a`, then
the own fields of `b` on top (later writer wins per key). -/
def jsSpread2 (a b : Json) : Json :=
  Json.obj (assignFields (assignFields [] (Json.ownFields a)) (Json.ownFields b))

/-- JavaScript falsiness: null, false, 0 and the empty string (and undefined,
modelled separately as `none`). -/
def Json.jsFalsy : Json → Bool
  | Json.null => true
  | Json.bool b => !b
  | Json.num n => n == 0
  | Json.str s => s == ""
  | _ => false

/-- The idiom `x || d`: if `x` is undefined or falsy the default is used. -/
def jsOr (v : Option Json) (d : Json) : Json :=
  match v with
  | some j => if j.jsFalsy then d else j
  | none => d

/-- Elements an array value contributes to `Array.prototype.concat` or `push`
(non-arrays never reach these calls on code-produced values). -/
def arrayElems : Json → List Json
  | Json.arr xs => xs
  | _ => []

/-- Elements produced by spreading an iterable (`...x`): array elements, or
the characters of a string. -/
def spreadElems : Json → List Json
  | Json.arr xs => xs
  | Json.str s => s.data.map (fun ch => Json.str (String.mk [ch]))
  | _ => []

/-- `base.concat(arg)`: an array argument is spliced in, any other value is
appended as a single element. -/
def jsConcat (base arg : Json) : Json :=
  Json.arr (arrayElems base ++ (match arg with | Json.arr ys => ys | v => [v]))

/-- The semantics of `===` as the source uses it on `type` fields: value
equality on primitives.  Two distinct composite nodes compare unequal, which
is the reference semantics of `===` for distinct freshly parsed nodes. -/
def Json.beq : Json → Json → Bool
  | Json.null, Json.null => true
  | Json.bool a, Json.bool b => a == b
  | Json.num a, Json.num b => a == b
  | Json.str a, Json.str b => a == b
  | _, _ => false

def optJsonBeq : Option Json → Option Json → Bool
  | some a, some b => Json.beq a b
  | none, none => true
  | _, _ => false

/-- Property write `x.k = v` (a silent no-op on primitives, which matches
non-strict JavaScript; the receivers built by the code are always objects). -/
def Json.setF : Json → String → Json → Json
  | Json.obj fs, k, v => Json.obj (setAssoc fs k v)
  | j, _, _ => j

/-
  RefCounter (source lines 18-36).  `_counter` maps a pointer to a number;
  an absent key and an `undefined` value both read back as 0 here, which is
  sound because every use in the source is a truthiness test.
-/

def Counter := String → Int

def counterZero : Counter := fun _ => 0

/-- `visit`: `this._counter[ref] = this._counter[ref] ? this._counter[ref] + 1 : 1`. -/
def Counter.visit (c : Counter) (r : String) : Counter :=
  fun s => if s = r then (if c r = 0 then 1 else c r + 1) else c s

/-- `exit`: `this._counter[ref] = this._counter[ref] && this._counter[ref] - 1`
(a falsy counter is assigned back unchanged). -/
def Counter.exit (c : Counter) (r : String) : Counter :=
  fun s => if s = r then (if c r = 0 then 0 else c r - 1) else c s

/-- `visited`: `!!this._counter[ref]`. -/
def Counter.visited (c : Counter) (r : String) : Bool :=
  decide (c r ≠ 0)

/-
  Pointer resolution.  The JsonPointer utility lives outside src/, so it is
  modelled from the spec (PointerResolver, section 4.1).
-/

/-- Modelled from the spec: pointers are percent-decoded before use
(`decodeURIComponent` in the source, which is a platform builtin).  Modelled
as a total decoder of single-byte escapes that leaves malformed escapes
unchanged. -/
def hexVal (c : Char) : Option Nat :=
  if '0' ≤ c ∧ c ≤ '9' then some (c.toNat - '0'.toNat)
  else if 'a' ≤ c ∧ c ≤ 'f' then some (c.toNat - 'a'.toNat + 10)
  else if 'A' ≤ c ∧ c ≤ 'F' then some (c.toNat - 'A'.toNat + 10)
  else none

def percentDecodeAux : List Char → List Char
  | [] => []
  | '%' :: a :: b :: rest =>
    match hexVal a, hexVal b with
    | some ha, some hb => Char.ofNat (16 * ha + hb) :: percentDecodeAux rest
    | _, _ => '%' :: a :: b :: percentDecodeAux rest
  | ch :: rest => ch :: percentDecodeAux rest

def percentDecode (s : String) : String :=
  String.mk (percentDecodeAux s.data)

/-- `charAt(0) === the fragment marker`. -/
def startsWithHash (s : String) : Bool :=
  match s.data with
  | '#' :: _ => true
  | _ => false

/-- Split a character list on slashes (`"a/b".split` semantics). -/
def splitSlashAux : List Char → List Char → List String
  | [], acc => [String.mk acc.reverse]
  | c :: rest, acc =>
    if c = '/' then String.mk acc.reverse :: splitSlashAux rest []
    else splitSlashAux rest (c :: acc)

/-- Modelled from the spec: the PointerResolver splits the pointer into
slash-delimited segments after the fragment marker. -/
def JsonPointer.parse (p : String) : List String :=
  let q := match p.data with
    | '#' :: rest => rest
    | cs => cs
  match splitSlashAux q [] with
  | "" :: rest => rest
  | segs => segs

/-- Modelled from the spec: resolution walks the segments through the tree; a
missing key, missing index, or type mismatch fails with a NotFound error. -/
def JsonPointer.walk : Json → List String → Except String Json
  | j, [] => Except.ok j
  | Json.obj fs, seg :: rest =>
    match assocFind fs seg with
    | some v => JsonPointer.walk v rest
    | none => Except.error "PointerNotFound"
  | Json.arr xs, seg :: rest =>
    match seg.toNat? with
    | some i =>
      match xs.get? i with
      | some v => JsonPointer.walk v rest
      | none => Except.error "PointerNotFound"
    | none => Except.error "PointerNotFound"
  | _, _ :: _ => Except.error "PointerNotFound"

def JsonPointer.get (doc : Json) (p : String) : Except String Json :=
  JsonPointer.walk doc (JsonPointer.parse p)

/-- Modelled from the spec: the base name of a pointer is its final segment. -/
def JsonPointer.baseName (p : String) : String :=
  List.getLastD (JsonPointer.parse p) ""

/-- `byRef` (source lines 94-105): prepend the fragment marker when missing,
percent-decode, and resolve; a resolution failure is caught and surfaces as
`undefined` (`none`). -/
def byRef (doc : Json) (ref : String) : Option Json :=
  let ref1 := if startsWithHash ref then ref else "#" ++ ref
  let ref2 := percentDecode ref1
  match JsonPointer.get doc ref2 with
  | Except.ok v => some v
  | Except.error _ => none

/-- `isRef` (source lines 110-115): falsy values are not references;
otherwise a value is a reference exactly when its `$ref` field is neither
undefined nor null. -/
def isRef : Option Json → Bool
  | none => false
  | some j =>
    if Json.jsFalsy j then false
    else
      match Json.getField j "$ref" with
      | none => false
      | some Json.null => false
      | some _ => true

/-- A bare reference node. -/
def mkRef (r : String) : Json := Json.obj [("$ref", Json.str r)]

/-- `Object.assign({}, resolved, ... x-circular-ref ... )` (source line 149):
a fresh copy of the resolved node extended with the circular marker.  An
undefined resolved value contributes no fields. -/
def circAssign (resolved : Option Json) : Json :=
  jsSpread2 (resolved.getD Json.null) (Json.obj [("x-circular-ref", Json.bool true)])

/-- `exitRef` (source lines 132-135): a no-op on non-references, otherwise an
exit of the pointer.  A non-string pointer cannot reach this call (the
dereference of such a node throws first). -/
def exitRefC (c : Counter) (o : Json) : Counter :=
  if isRef (some o) then
    match Json.getField o "$ref" with
    | some (Json.str r) => Counter.exit c r
    | _ => c
  else c

/-- `deref` (source lines 142-160), with the counter threaded explicitly and
fuel bounding the recursion (`none` = did not terminate within the fuel).
Reading `obj.$ref`: a missing or null field means the node is not a reference
and is returned as is; a string field is resolved; any other field makes the
node a reference whose pointer has no `charAt`, so the call throws.  Note the
recursive call on a resolved reference passes `forceCircular = false`, as the
source does, and that a thrown inner error skips the `exitRef`. -/
def deref (doc : Json) : Nat → Counter → Json → Bool →
    Option (Except String (Option Json) × Counter)
  | 0, _, _, _ => none
  | fuel + 1, c, obj, forceCircular =>
    match Json.getField obj "$ref" with
    | none => some (Except.ok (some obj), c)
    | some Json.null => some (Except.ok (some obj), c)
    | some (Json.str r) =>
      let resolved := byRef doc r
      let vis := Counter.visited c r
      let c1 := Counter.visit c r
      if vis && !forceCircular then
        some (Except.ok (some (circAssign resolved)), c1)
      else
        match resolved with
        | none => some (Except.ok none, c1)
        | some res =>
          if isRef (some res) then
            match deref doc fuel c1 res false with
            | none => none
            | some (Except.error e, c2) => some (Except.error e, c2)
            | some (Except.ok v, c2) => some (Except.ok v, exitRefC c2 res)
          else some (Except.ok (some res), c1)
    | some _ => some (Except.error "TypeError: ref.charAt is not a function", c)

/-- The result component of a `deref` run (the counter is internal state). -/
def derefResult (doc : Json) (fuel : Nat) (c : Counter) (obj : Json) (fc : Bool) :
    Option (Except String (Option Json)) :=
  (deref doc fuel c obj fc).map Prod.fst

/-- Two successive `deref` calls on the same node within one pass (no
`resetVisited` in between); returns the second result. -/
def derefTwice (doc : Json) (fuel : Nat) (obj : Json) (fc : Bool) :
    Option (Except String (Option Json)) :=
  match deref doc fuel counterZero obj fc with
  | some (_, c1) => derefResult doc fuel c1 obj fc
  | none => none

/-
  mergeAllOf (source lines 168-237) and its helpers.
-/

/-- Strip a literal character prefix, or fail. -/
def dropPre : List Char → List Char → Option (List Char)
  | [], cs => some cs
  | _, [] => none
  | p :: ps, c :: cs => if c = p then dropPre ps cs else none

/-- Modelled from the spec: a pointer names a first-class reusable definition
exactly when it points at a named top-level schema definition,
`#/components/schemas/<name>` with a nonempty slash-free name
(utils/openapi.isNamedDefinition lives outside src/). -/
def isNamedDefinition : Option String → Bool
  | none => false
  | some p =>
    match dropPre "#/components/schemas/".data p.data with
    | some name => !(name.isEmpty) && !(name.contains '/')
    | none => false

/-- The error text of source line 200; an absent pointer prints as the string
`undefined` in a template literal. -/
def typeConflictMsg (ref : Option String) : String :=
  "Uncopatible types in allOf at \"" ++ (match ref with | some r => r | none => "undefined") ++ "\""

/-- `receiver.parentRefs!.push(v)` — `parentRefs` is an array by construction
of the receiver. -/
def pushParentRef (receiver : Json) (v : Json) : Json :=
  Json.setF receiver "parentRefs"
    (Json.arr (arrayElems ((Json.getField receiver "parentRefs").getD (Json.arr [])) ++ [v]))

/-- `{ ...schema, allOf: undefined, parentRefs: [] }` (source lines 177-181).
The `undefined`-valued `allOf` key is modelled by key absence (all successful
merge results leave `allOf` absent, so the later receiver-wins spread agrees
with the source). -/
def buildReceiver (schema : Json) : Json :=
  Json.setF
    (Json.obj ((assignFields [] (Json.ownFields schema)).filter (fun p => p.1 != "allOf")))
    "parentRefs" (Json.arr [])

/-- `if (subSchema.type !== undefined) receiver.type = subSchema.type`
(source lines 203-205). -/
def stepType (receiver sub : Json) : Json :=
  match Json.getField sub "type" with
  | some t => Json.setF receiver "type" t
  | none => receiver

/-- The properties merge of source lines 207-213: a shallow union of the two
property maps, branch entries overwriting receiver entries per key. -/
def stepProps (receiver sub : Json) : Json :=
  match Json.getField sub "properties" with
  | some sProps =>
    Json.setF receiver "properties"
      (jsSpread2 (jsOr (Json.getField receiver "properties") (Json.obj [])) sProps)
  | none => receiver

/-- The required merge of source lines 215-217: concatenation, receiver
first, no deduplication. -/
def stepReq (receiver sub : Json) : Json :=
  match Json.getField sub "required" with
  | some sReq =>
    Json.setF receiver "required"
      (jsConcat (jsOr (Json.getField receiver "required") (Json.arr [])) sReq)
  | none => receiver

/-- Source lines 223-228: when the branch came from a reference, push its
pointer onto `parentRefs`, and when the receiver still has no title and the
pointer names a first-class definition, infer the title from it. -/
def stepRefTitle (receiver : Json) (subRef : Option String) : Json :=
  match subRef with
  | some sr =>
    let r5a := pushParentRef receiver (Json.str sr)
    if (Json.getField r5a "title").isNone && isNamedDefinition (some sr) then
      Json.setF r5a "title" (Json.str (JsonPointer.baseName sr))
    else r5a
  | none => receiver

/-- One iteration of the fold of source lines 194-229, folding a merged branch
(with the pointer it came from, when it was a reference) into the receiver:
the type-conflict check, the three branch-wins merges, the receiver-wins
spread `{...subSchema, ...receiver}` of line 221, and the parentRefs/title
bookkeeping. -/
def mergeStep (ref : Option String) (receiver0 : Json) (branch : Option String × Json) :
    Except String Json :=
  let subRef := branch.1
  let sub := branch.2
  if !(optJsonBeq (Json.getField receiver0 "type") (Json.getField sub "type"))
      && (Json.getField receiver0 "type").isSome && (Json.getField sub "type").isSome then
    Except.error (typeConflictMsg ref)
  else
    Except.ok (stepRefTitle
      (jsSpread2 sub (stepReq (stepProps (stepType receiver0 sub) sub) sub)) subRef)

/-- The fold of source lines 194-229 over all merged branches, in list order. -/
def mergeFold (ref : Option String) : Json → List (Option String × Json) → Except String Json
  | receiver, [] => Except.ok receiver
  | receiver, b :: rest =>
    match mergeStep ref receiver b with
    | Except.error e => Except.error e
    | Except.ok receiver2 => mergeFold ref receiver2 rest

/-- The traversal of `schema.allOf.map(...)` (source lines 183-192): each
branch is dereferenced, recursively merged (`m` is the recursive merge at the
next smaller fuel), and its `parentRefs` are collected, depth-first in branch
order.  Returns the list of (branch pointer, merged branch) pairs together
with the collected parentRefs elements. -/
def mergeBranchesWith (doc : Json)
    (m : Counter → Option Json → Option String → Bool → Option (Except String Json × Counter))
    (fuel : Nat) :
    Counter → List Json → Bool →
    Option (Except String (List (Option String × Json) × List Json) × Counter)
  | c, [], _ => some (Except.ok ([], []), c)
  | c, sub :: rest, fc =>
    match deref doc fuel c sub fc with
    | none => none
    | some (Except.error e, c1) => some (Except.error e, c1)
    | some (Except.ok resolved, c1) =>
      let subRef : Option String :=
        match Json.getField sub "$ref" with
        | some (Json.str s) => if s == "" then none else some s
        | _ => none
      match m c1 resolved subRef fc with
      | none => none
      | some (Except.error e, c2) => some (Except.error e, c2)
      | some (Except.ok subMerged, c2) =>
        let prsSub := spreadElems (jsOr (Json.getField subMerged "parentRefs") (Json.arr []))
        match mergeBranchesWith doc m fuel c2 rest fc with
        | none => none
        | some (Except.error e, c3) => some (Except.error e, c3)
        | some (Except.ok (pairs, prs), c3) =>
          some (Except.ok ((subRef, subMerged) :: pairs, prsSub ++ prs), c3)

/-- `mergeAllOf` (source lines 168-237).  A schema without an `allOf` key is
returned unchanged; a defined non-array `allOf` has no `.map` and throws.
Otherwise the branches are traversed (phase with side effects on the counter
and on `receiver.parentRefs`), then folded into the receiver in order, and
finally, when the schema itself has no title and the top-level pointer names a
first-class definition, the title is set to that pointer's base name.
An `undefined` schema (a dangling branch reference) throws on the `allOf`
read. -/
def mergeAllOf (doc : Json) : Nat → Counter → Option Json → Option String → Bool →
    Option (Except String Json × Counter)
  | 0, _, _, _, _ => none
  | fuel + 1, c, schemaOpt, ref, forceCircular =>
    match schemaOpt with
    | none => some (Except.error "TypeError: Cannot read properties of undefined", c)
    | some schema =>
      match Json.getField schema "allOf" with
      | none => some (Except.ok schema, c)
      | some (Json.arr branches) =>
        let receiver0 := buildReceiver schema
        match mergeBranchesWith doc (mergeAllOf doc fuel) fuel c branches forceCircular with
        | none => none
        | some (Except.error e, c2) => some (Except.error e, c2)
        | some (Except.ok (pairs, prs), c2) =>
          let receiver1 := Json.setF receiver0 "parentRefs" (Json.arr prs)
          match mergeFold ref receiver1 pairs with
          | Except.error e => some (Except.error e, c2)
          | Except.ok merged =>
            let final :=
              if (Json.getField schema "title").isNone && isNamedDefinition ref then
                Json.setF merged "title" (Json.str (JsonPointer.baseName (ref.getD "")))
              else merged
            some (Except.ok final, c2)
      | some _ => some (Except.error "TypeError: schema.allOf.map is not a function", c)

/-- The ok-projection of the branch traversal (counter dropped). -/
def mergeBranchesOk (doc : Json) (fuel : Nat) (c : Counter) (branches : List Json) (fc : Bool) :
    Option (List (Option String × Json) × List Json) :=
  match mergeBranchesWith doc (mergeAllOf doc fuel) fuel c branches fc with
  | some (Except.ok pr, _) => some pr
  | _ => none

/-- The result component of a `mergeAllOf` run (the counter is internal state). -/
def mergeAllOfResult (doc : Json) (fuel : Nat) (c : Counter) (schemaOpt : Option Json)
    (ref : Option String) (fc : Bool) : Option (Except String Json) :=
  (mergeAllOf doc fuel c schemaOpt ref fc).map Prod.fst

/-
  findDerived (source lines 244-257).
-/

/-- `(this.spec.components && this.spec.components.schemas) || {}`. -/
def schemasOf (doc : Json) : Json :=
  match Json.getField doc "components" with
  | none => Json.obj []
  | some cj =>
    if cj.jsFalsy then Json.obj []
    else
      match Json.getField cj "schemas" with
      | none => Json.obj []
      | some sj => if sj.jsFalsy then Json.obj [] else sj

/-- `def.allOf.find(obj => obj.$ref !== undefined && $refs.indexOf(obj.$ref) > -1)`
as a boolean: `indexOf` on a list of strings matches only an equal string.
Reading `.$ref` off a null element throws. -/
def findRefMatch (refs : List String) : List Json → Except String Bool
  | [] => Except.ok false
  | b :: rest =>
    match b with
    | Json.null => Except.error "TypeError: Cannot read properties of null"
    | _ =>
      match Json.getField b "$ref" with
      | some (Json.str s) =>
        if refs.contains s then Except.ok true else findRefMatch refs rest
      | _ => findRefMatch refs rest

/-- The `for (defName in schemas)` loop of `findDerived`: each definition is
dereferenced (the counter threads across iterations; there is no reset), and
recorded when its `allOf` contains a matching reference branch. -/
def findDerivedLoop (doc : Json) (fuel : Nat) (refs : List String) :
    Counter → List (String × Json) → List (String × String) →
    Option (Except String (List (String × String)) × Counter)
  | c, [], acc => some (Except.ok acc, c)
  | c, (defName, defVal) :: rest, acc =>
    match deref doc fuel c defVal false with
    | none => none
    | some (Except.error e, c1) => some (Except.error e, c1)
    | some (Except.ok none, c1) =>
      some (Except.error "TypeError: Cannot read properties of undefined", c1)
    | some (Except.ok (some d), c1) =>
      match Json.getField d "allOf" with
      | none => findDerivedLoop doc fuel refs c1 rest acc
      | some (Json.arr branches) =>
        match findRefMatch refs branches with
        | Except.error e => some (Except.error e, c1)
        | Except.ok true =>
          findDerivedLoop doc fuel refs c1 rest
            (setAssoc acc ("#/components/schemas/" ++ defName) defName)
        | Except.ok false => findDerivedLoop doc fuel refs c1 rest acc
      | some _ => some (Except.error "TypeError: def.allOf.find is not a function", c1)

/-- `findDerived` (source lines 244-257). -/
def findDerived (doc : Json) (fuel : Nat) (c : Counter) (refs : List String) :
    Option (Except String (List (String × String)) × Counter) :=
  findDerivedLoop doc fuel refs c (Json.ownFields (schemasOf doc)) []

/-- Follows the wording of the spec (DerivedFinder contract), for comparison
with `findDerived`: a definition is derived when it declares a composition
list with a Reference branch whose pointer is among the targets. -/
def declaresDerived (refs : List String) (s : Json) : Bool :=
  match Json.getField s "allOf" with
  | some (Json.arr branches) =>
    branches.any (fun b =>
      match Json.getField b "$ref" with
      | some (Json.str x) => refs.contains x
      | _ => false)
  | _ => false

/-- Follows the wording of the spec: the mapping from each derived
definition's pointer to its short name, over the given definitions. -/
def findDerivedSpec (defs : List (String × Json)) (refs : List String) :
    List (String × String) :=
  defs.foldl
    (fun acc p =>
      if declaresDerived refs p.2 then setAssoc acc ("#/components/schemas/" ++ p.1) p.1
      else acc)
    []

/-
  Auxiliary definitions used by the statements of the claims.
-/

/-- A call on the RefCounter that mutates it. -/
inductive CounterOp where
  | visit : String → CounterOp
  | exit : String → CounterOp

def applyOp (c : Counter) : CounterOp → Counter
  | CounterOp.visit r => Counter.visit c r
  | CounterOp.exit r => Counter.exit c r

/-- The counter state after a sequence of visit/exit calls on a fresh counter. -/
def applyOps (ops : List CounterOp) : Counter :=
  ops.foldl applyOp counterZero

/-- A reference cycle in a document: starting from the pointer at the head of
the list, each pointer resolves to a node whose `$ref` is the next pointer in
the list, and the last one points back to `root`. -/
def chainLinked (doc : Json) (root : String) : List String → Prop
  | [] => True
  | p :: rest =>
    (∃ n, byRef doc p = some n ∧
      Json.getField n "$ref" = some (Json.str (rest.headD root)))
    ∧ chainLinked doc root rest

/-- Whether a key occurs in a field list. -/
def keyMem (l : List (String × Json)) (x : String) : Bool :=
  l.any (fun p => p.1 == x)

/-- No key occurs twice (the invariant of every real JavaScript object and of
every object the embedding builds). -/
def distinctKeys : List (String × Json) → Bool
  | [] => true
  | p :: rest => !(keyMem rest p.1) && distinctKeys rest

/-- An object value with pairwise-distinct keys. -/
def goodObj : Json → Bool
  | Json.obj fs => distinctKeys fs
  | _ => false

/-- The `properties` field of a value is absent, null, or an object without
duplicate keys (as in any document parsed from JSON). -/
def propsOk (j : Json) : Bool :=
  match Json.getField j "properties" with
  | none => true
  | some Json.null => true
  | some (Json.obj fs) => distinctKeys fs
  | some _ => false

/-- The `required` field of a value is absent or an array. -/
def reqOk (j : Json) : Bool :=
  match Json.getField j "required" with
  | none => true
  | some (Json.arr _) => true
  | some _ => false

/-- Lookup of a named property schema inside the `properties` field. -/
def propsFind (j : Json) (k : String) : Option Json :=
  match Json.getField j "properties" with
  | some (Json.obj fs) => assocFind fs k
  | _ => none

/-- The `allOf` field of a value is absent or an array without null entries. -/
def allOfOk (s : Json) : Bool :=
  match Json.getField s "allOf" with
  | none => true
  | some (Json.arr bs) => bs.all (fun b => (match b with | Json.null => false | _ => true))
  | some _ => false

/-- Every named top-level definition is an inline (non-reference) value with a
wellformed `allOf`. -/
def defsInlineOk (defs : List (String × Json)) : Bool :=
  defs.all (fun p => (Json.getField p.2 "$ref").isNone && allOfOk p.2)

/-- A document with a direct self-cycle at #/a. -/
def exampleSelfLoopDoc : Json := Json.obj [("a", mkRef "#/a")]

/-- A document where #/a is a reference to #/b, which is inline. -/
def exampleChainDoc : Json :=
  Json.obj [("a", mkRef "#/b"), ("b", Json.obj [("v", Json.num 1)])]

/-- A schema whose two composition branches declare the given two types. -/
def conflictSchema (t1 t2 : String) : Json :=
  Json.obj [("allOf", Json.arr
    [Json.obj [("type", Json.str t1)], Json.obj [("type", Json.str t2)]])]

/-- Named definition C: an inline object schema. -/
def exampleDefC : Json := Json.obj [("type", Json.str "object")]

/-- Named definition B: composes with C by reference. -/
def exampleDefB : Json :=
  Json.obj [("allOf", Json.arr [mkRef "#/components/schemas/C"])]

/-- A document holding the named definitions B and C. -/
def exampleNestedDoc : Json :=
  Json.obj [("components", Json.obj [("schemas",
    Json.obj [("B", exampleDefB), ("C", exampleDefC)])])]

/-- A schema composing with B by reference. -/
def exampleNestedSchema : Json :=
  Json.obj [("allOf", Json.arr [mkRef "#/components/schemas/B"])]

/-- A schema with one inline branch that carries a title. -/
def exampleTitledBranchSchema : Json :=
  Json.obj [("allOf", Json.arr
    [Json.obj [("title", Json.str "Branchy"), ("type", Json.str "object")]])]

/-- A document with one derived, one plain and one inline-composed definition. -/
def exampleDerivedDoc : Json :=
  Json.obj
    [("components", Json.obj
      [("schemas", Json.obj
        [("Derived1", Json.obj [("allOf", Json.arr [mkRef "#/components/schemas/Base"])]),
         ("Plain", Json.obj [("type", Json.str "object")]),
         ("Derived2", Json.obj [("allOf", Json.arr [Json.obj [("type", Json.str "string")]])])])])]

/-- A concrete receiver exercising every merge field category. -/
def exampleReceiver : Json :=
  Json.obj [("type", Json.str "object"),
            ("properties", Json.obj [("a", Json.obj [])]),
            ("required", Json.arr [Json.str "a"]),
            ("parentRefs", Json.arr []),
            ("x", Json.str "receiver")]

/-- A concrete branch schema exercising every merge field category. -/
def exampleBranch : Json :=
  Json.obj [("type", Json.str "object"),
            ("properties", Json.obj [("a", Json.str "fromBranch"), ("b", Json.obj [])]),
            ("required", Json.arr [Json.str "a"]),
            ("x", Json.str "branch"),
            ("y", Json.num 2)]

/-
  Association-list toolkit.
-/

theorem assocFind_setAssoc (l : List (String × Json)) (k : String) (v : Json) (k2 : String) :
    assocFind (setAssoc l k v) k2 = if k2 = k then some v else assocFind l k2 := by
  induction l with
  | nil =>
    by_cases h : k2 = k
    · subst h; simp [setAssoc, assocFind]
    · have h2 : ¬ k = k2 := fun hh => h hh.symm
      simp [setAssoc, assocFind, h, h2]
  | cons p rest ih =>
    by_cases hp : p.1 = k
    · by_cases h : k2 = k
      · subst h; simp [setAssoc, hp, assocFind]
      · have h2 : ¬ k = k2 := fun hh => h hh.symm
        have hp2 : ¬ p.1 = k2 := by rw [hp]; exact h2
        simp [setAssoc, hp, assocFind, h, h2, hp2]
    · by_cases hk2 : p.1 = k2
      · have h : ¬ k2 = k := by rw [← hk2]; exact fun hh => hp hh
        simp [setAssoc, hp, assocFind, hk2, h]
      · simp [setAssoc, hp, assocFind, hk2, ih]

theorem keyMem_eq_isSome (l : List (String × Json)) (x : String) :
    keyMem l x = (assocFind l x).isSome := by
  induction l with
  | nil => simp [keyMem, assocFind]
  | cons p rest ih =>
    by_cases hp : p.1 = x
    · simp [keyMem, List.any_cons, assocFind, hp]
    · have h1 : (p.1 == x) = false := beq_eq_false_iff_ne.mpr hp
      simp only [keyMem, List.any_cons, assocFind, hp, if_false, h1, Bool.false_or]
      exact ih

theorem keyMem_setAssoc (l : List (String × Json)) (k : String) (v : Json) (x : String) :
    keyMem (setAssoc l k v) x = (x == k || keyMem l x) := by
  rw [keyMem_eq_isSome, keyMem_eq_isSome, assocFind_setAssoc]
  by_cases h : x = k
  · simp [h]
  · have h1 : (x == k) = false := beq_eq_false_iff_ne.mpr h
    simp [h, h1]

theorem distinctKeys_setAssoc (l : List (String × Json)) (k : String) (v : Json)
    (h : distinctKeys l = true) : distinctKeys (setAssoc l k v) = true := by
  induction l with
  | nil => simp [setAssoc, distinctKeys, keyMem]
  | cons p rest ih =>
    simp only [distinctKeys, Bool.and_eq_true, Bool.not_eq_true'] at h
    by_cases hp : p.1 = k
    · subst hp
      simp [setAssoc, distinctKeys, h.1, h.2]
    · simp only [setAssoc, hp, if_false, distinctKeys, Bool.and_eq_true, Bool.not_eq_true']
      refine ⟨?_, ih h.2⟩
      rw [keyMem_setAssoc]
      have h1 : (p.1 == k) = false := beq_eq_false_iff_ne.mpr hp
      simp [h1, h.1]

theorem distinctKeys_assignFields (init : List (String × Json)) (src : List (String × Json))
    (h : distinctKeys init = true) : distinctKeys (assignFields init src) = true := by
  induction src generalizing init with
  | nil => simpa [assignFields]
  | cons p rest ih =>
    simp only [assignFields, List.foldl_cons] at *
    exact ih _ (distinctKeys_setAssoc _ _ _ h)

theorem assocFind_append (a b : List (String × Json)) (k : String) :
    assocFind (a ++ b) k =
      (match assocFind a k with
       | some v => some v
       | none => assocFind b k) := by
  induction a with
  | nil => simp [assocFind]
  | cons p rest ih =>
    simp only [List.cons_append, assocFind]
    by_cases hp : p.1 = k
    · simp [hp]
    · simp [hp, ih]

theorem assocFind_assignFields (src : List (String × Json)) (init : List (String × Json))
    (k : String) :
    assocFind (assignFields init src) k =
      (match assocFind src.reverse k with
       | some v => some v
       | none => assocFind init k) := by
  induction src generalizing init with
  | nil => simp [assignFields, assocFind]
  | cons p rest ih =>
    simp only [assignFields, List.foldl_cons, List.reverse_cons]
    rw [show List.foldl (fun acc q => setAssoc acc q.1 q.2) (setAssoc init p.1 p.2) rest =
          assignFields (setAssoc init p.1 p.2) rest from rfl,
        ih, assocFind_append, assocFind_setAssoc]
    cases h1 : assocFind rest.reverse k with
    | some v => simp
    | none =>
      by_cases hk : k = p.1
      · subst hk
        simp [assocFind]
      · have hk2 : ¬ p.1 = k := fun h => hk h.symm
        simp [assocFind, hk, hk2]

theorem assocFind_eq_none_iff (l : List (String × Json)) (k : String) :
    assocFind l k = none ↔ keyMem l k = false := by
  rw [keyMem_eq_isSome]
  cases h : assocFind l k <;> simp

theorem assocFind_reverse_of_distinct (l : List (String × Json))
    (h : distinctKeys l = true) (k : String) :
    assocFind l.reverse k = assocFind l k := by
  induction l with
  | nil => rfl
  | cons p rest ih =>
    simp only [distinctKeys, Bool.and_eq_true, Bool.not_eq_true'] at h
    rw [List.reverse_cons, assocFind_append, ih h.2]
    by_cases hp : p.1 = k
    · subst hp
      have h0 : assocFind rest p.1 = none := (assocFind_eq_none_iff _ _).2 h.1
      simp [h0, assocFind]
    · simp only [assocFind, hp, if_false]
      cases hfind : assocFind rest k <;> simp

theorem getField_setF (fs : List (String × Json)) (k : String) (v : Json) (k2 : String) :
    Json.getField (Json.setF (Json.obj fs) k v) k2 =
      if k2 = k then some v else Json.getField (Json.obj fs) k2 := by
  simp [Json.setF, Json.getField, assocFind_setAssoc]

theorem goodObj_setF (j : Json) (k : String) (v : Json) (h : goodObj j = true) :
    goodObj (Json.setF j k v) = true := by
  cases j with
  | obj fs => exact distinctKeys_setAssoc fs k v h
  | null => exact h
  | bool b => exact h
  | num n => exact h
  | str s => exact h
  | arr xs => exact h

theorem goodObj_jsSpread2 (a b : Json) : goodObj (jsSpread2 a b) = true := by
  exact distinctKeys_assignFields _ _ (distinctKeys_assignFields _ _ rfl)

theorem getField_jsSpread2 (a b : Json) (k : String) :
    Json.getField (jsSpread2 a b) k =
      (match assocFind (Json.ownFields b).reverse k with
       | some v => some v
       | none => assocFind (Json.ownFields a).reverse k) := by
  show assocFind (assignFields (assignFields [] (Json.ownFields a)) (Json.ownFields b)) k = _
  rw [assocFind_assignFields]
  cases h1 : assocFind (Json.ownFields b).reverse k with
  | some v => simp
  | none =>
    simp only
    rw [assocFind_assignFields]
    cases h2 : assocFind (Json.ownFields a).reverse k <;> simp [assocFind]

theorem getField_jsSpread2_good (a b : Json) (hb : goodObj b = true) (k : String) :
    Json.getField (jsSpread2 a b) k =
      (match Json.getField b k with
       | some v => some v
       | none => assocFind (Json.ownFields a).reverse k) := by
  rw [getField_jsSpread2]
  cases b with
  | obj bfs =>
    have h := assocFind_reverse_of_distinct bfs hb k
    simp only [Json.ownFields, Json.getField, h]
  | null => simp [goodObj] at hb
  | bool x => simp [goodObj] at hb
  | num x => simp [goodObj] at hb
  | str x => simp [goodObj] at hb
  | arr x => simp [goodObj] at hb

theorem getField_jsSpread2_good2 (a b : Json) (ha : goodObj a = true) (hb : goodObj b = true)
    (k : String) :
    Json.getField (jsSpread2 a b) k =
      (match Json.getField b k with
       | some v => some v
       | none => Json.getField a k) := by
  rw [getField_jsSpread2_good a b hb]
  cases hf : Json.getField b k with
  | some v => simp
  | none =>
    simp only
    cases a with
    | obj afs =>
      have h := assocFind_reverse_of_distinct afs ha k
      simp only [Json.ownFields, Json.getField, h]
    | null => simp [goodObj] at ha
    | bool x => simp [goodObj] at ha
    | num x => simp [goodObj] at ha
    | str x => simp [goodObj] at ha
    | arr x => simp [goodObj] at ha

/-
  RefCounter invariants (claim C9).
-/

theorem applyOp_nonneg (c : Counter) (h : ∀ q, 0 ≤ c q) (op : CounterOp) (q : String) :
    0 ≤ applyOp c op q := by
  cases op with
  | visit r =>
    simp only [applyOp, Counter.visit]
    by_cases hq : q = r
    · rw [if_pos hq]
      have := h r
      by_cases h0 : c r = 0
      · rw [if_pos h0]; omega
      · rw [if_neg h0]; omega
    · rw [if_neg hq]; exact h q
  | exit r =>
    simp only [applyOp, Counter.exit]
    by_cases hq : q = r
    · rw [if_pos hq]
      have := h r
      by_cases h0 : c r = 0
      · simp only [if_pos h0]; omega
      · simp only [if_neg h0]; omega
    · rw [if_neg hq]; exact h q

theorem foldl_applyOp_nonneg (ops : List CounterOp) (c : Counter) (h : ∀ q, 0 ≤ c q) :
    ∀ q, 0 ≤ ops.foldl applyOp c q := by
  induction ops generalizing c with
  | nil => exact h
  | cons op rest ih => exact ih (applyOp c op) (applyOp_nonneg c h op)

/-- C9: after any sequence of visit/exit calls on a fresh reference counter,
every pointer's counter is nonnegative; an exit on a pointer whose counter is
logically zero leaves it at zero (never negative); and `visited` reports true
exactly when the counter is positive. -/
theorem C9_refcounter_invariant (ops : List CounterOp) (p : String) :
    0 ≤ applyOps ops p
    ∧ (applyOps ops p = 0 → Counter.exit (applyOps ops) p p = 0)
    ∧ (Counter.visited (applyOps ops) p = true ↔ 0 < applyOps ops p) := by
  have hn : ∀ q, 0 ≤ applyOps ops q :=
    foldl_applyOp_nonneg ops counterZero (fun _ => le_refl 0)
  refine ⟨hn p, ?_, ?_⟩
  · intro h0
    simp [Counter.exit, h0]
  · have hp := hn p
    simp only [Counter.visited]
    constructor
    · intro hv
      have : applyOps ops p ≠ 0 := of_decide_eq_true hv
      omega
    · intro hlt
      exact decide_eq_true (by omega)

theorem C9_witness :
    (0 ≤ applyOps [CounterOp.exit "a", CounterOp.visit "a"] "a")
    ∧ Counter.exit (applyOps []) "a" "a" = 0
    ∧ (Counter.visited (applyOps [CounterOp.visit "a"]) "a" = true ↔
        0 < applyOps [CounterOp.visit "a"] "a") :=
  ⟨(C9_refcounter_invariant [CounterOp.exit "a", CounterOp.visit "a"] "a").1,
   (C9_refcounter_invariant [] "a").2.1 rfl,
   (C9_refcounter_invariant [CounterOp.visit "a"] "a").2.2⟩

/-
  Dereferencing a reference whose pointer does not resolve (claim C3).
-/

/-- C3 counterexample: within one pass, a second `deref` of the same dangling
reference does not surface `undefined` — the pointer is marked visited by the
first call (which never exits on the terminal path), so the second call
returns a synthesized object holding only the circular marker. -/
theorem C3_counterexample :
    derefTwice (Json.obj []) 1 (mkRef "#/missing") false =
      some (Except.ok (some (Json.obj [("x-circular-ref", Json.bool true)]))) := rfl

/-- C3 as amended: dereferencing a reference whose pointer fails to resolve
never throws; it surfaces `undefined` whenever the pointer is not currently
marked visited (in particular always on a fresh pass) or `forceCircular` is
set, and otherwise returns a fresh object holding only the circular marker. -/
theorem C3_dangling_ref_no_throw (doc : Json) (r : String) (c : Counter) (fuel : Nat)
    (fc : Bool) (h : byRef doc r = none) :
    derefResult doc (fuel + 1) c (mkRef r) fc =
      some (Except.ok (if Counter.visited c r && !fc then some (circAssign none) else none)) := by
  have hr : Json.getField (mkRef r) "$ref" = some (Json.str r) := rfl
  simp only [derefResult, deref, hr, h]
  cases hv : (Counter.visited c r && !fc) <;> simp [hv]

theorem C3_witness :
    byRef (Json.obj []) "#/x" = none ∧
    derefResult (Json.obj []) 1 counterZero (mkRef "#/x") false = some (Except.ok none) := by
  constructor
  · rfl
  · have h := C3_dangling_ref_no_throw (Json.obj []) "#/x" counterZero 0 false rfl
    simpa using h

/-
  Type conflicts in mergeAllOf (claim C5).
-/

theorem mergeStep_conflict (ref : Option String) (receiver sub : Json) (sr : Option String)
    (t1 t2 : String) (h1 : Json.getField receiver "type" = some (Json.str t1))
    (h2 : Json.getField sub "type" = some (Json.str t2)) (hne : t1 ≠ t2) :
    mergeStep ref receiver (sr, sub) = Except.error (typeConflictMsg ref) := by
  have hb : optJsonBeq (some (Json.str t1)) (some (Json.str t2)) = false := by
    simp only [optJsonBeq, Json.beq]
    exact beq_eq_false_iff_ne.mpr hne
  simp only [mergeStep, h1, h2, hb]
  simp

/-- C5: whenever the in-order fold of composition branches meets a branch
whose declared type differs from the type the receiver has accumulated, the
merge fails with the type-conflict error naming the schema's pointer, and no
merged result is produced; in particular for a schema whose two branches
declare distinct types. -/
theorem C5_type_conflict_error (doc : Json) (n : Nat) (c : Counter) (ref : Option String)
    (fc : Bool) (t1 t2 : String) (h : t1 ≠ t2) :
    mergeAllOf doc (n + 2) c (some (conflictSchema t1 t2)) ref fc =
      some (Except.error (typeConflictMsg ref), c) := by
  have e1 : mergeStep ref (Json.obj [("parentRefs", Json.arr [])])
      (none, Json.obj [("type", Json.str t1)]) =
      Except.ok (Json.obj [("type", Json.str t1), ("parentRefs", Json.arr [])]) := rfl
  have e2 : mergeStep ref (Json.obj [("type", Json.str t1), ("parentRefs", Json.arr [])])
      (none, Json.obj [("type", Json.str t2)]) = Except.error (typeConflictMsg ref) :=
    mergeStep_conflict ref _ _ none t1 t2 rfl rfl h
  have efold : mergeFold ref (Json.obj [("parentRefs", Json.arr [])])
      [(none, Json.obj [("type", Json.str t1)]), (none, Json.obj [("type", Json.str t2)])] =
      Except.error (typeConflictMsg ref) := by
    simp only [mergeFold, e1, e2]
  have hpre : mergeAllOf doc (n + 2) c (some (conflictSchema t1 t2)) ref fc =
      (match mergeFold ref (Json.obj [("parentRefs", Json.arr [])])
          [(none, Json.obj [("type", Json.str t1)]), (none, Json.obj [("type", Json.str t2)])] with
       | Except.error e => some (Except.error e, c)
       | Except.ok merged =>
         some (Except.ok
           (if (Json.getField (conflictSchema t1 t2) "title").isNone && isNamedDefinition ref then
              Json.setF merged "title" (Json.str (JsonPointer.baseName (ref.getD "")))
            else merged), c)) := rfl
  rw [hpre]
  simp only [efold]

theorem C5_witness :
    ("object" : String) ≠ "string" ∧
    mergeAllOf (Json.obj []) 2 counterZero (some (conflictSchema "object" "string"))
        (some "#/components/schemas/X") false =
      some (Except.error (typeConflictMsg (some "#/components/schemas/X")), counterZero) := by
  refine ⟨by decide, ?_⟩
  exact C5_type_conflict_error (Json.obj []) 0 counterZero (some "#/components/schemas/X")
    false "object" "string" (by decide)

/-
  forceCircular (claim C2).
-/

/-- C2 counterexample: with forceCircular = true, dereferencing a chained
reference whose inner pointer is already marked visited still returns a
circular-marked copy — the recursive call on the resolved inner reference
passes forceCircular = false (source line 153), so cycle short-circuiting is
not disabled beyond the immediate pointer. -/
theorem C2_counterexample :
    derefResult exampleChainDoc 3 (Counter.visit counterZero "#/b") (mkRef "#/a") true =
      some (Except.ok (some (Json.obj [("v", Json.num 1), ("x-circular-ref", Json.bool true)])))
    ∧ Json.getField (Json.obj [("v", Json.num 1), ("x-circular-ref", Json.bool true)])
        "x-circular-ref" = some (Json.bool true) := ⟨rfl, rfl⟩

theorem isRef_of_getField_str (res : Json) (r2 : String)
    (h : Json.getField res "$ref" = some (Json.str r2)) : isRef (some res) = true := by
  cases res with
  | obj fs => simp [isRef, Json.jsFalsy, h]
  | null => simp [Json.getField] at h
  | bool b => simp [Json.getField] at h
  | num n => simp [Json.getField] at h
  | str s => simp [Json.getField] at h
  | arr xs => simp [Json.getField] at h

theorem visited_visit_ne (c : Counter) (s r : String) (h : r ≠ s) :
    Counter.visited (Counter.visit c s) r = Counter.visited c r := by
  simp only [Counter.visited, Counter.visit, if_neg h]

/-- C2 as amended: forceCircular = true disables the circular short-circuit
only for the pointer of the given reference node itself — when that target is
not itself a reference the full resolved node is returned with no marker even
if the pointer was visited; but a resolved target that is itself a reference
is dereferenced with forceCircular = false, so a chained pointer that is
already marked visited still yields the circular-marked copy. -/
theorem C2_forceCircular_immediate_only :
    (∀ (doc : Json) (r : String) (res : Json) (c : Counter) (n : Nat),
      byRef doc r = some res → isRef (some res) = false →
      derefResult doc (n + 1) c (mkRef r) true = some (Except.ok (some res)))
    ∧ (∀ (doc : Json) (r r2 : String) (res res2 : Json) (c : Counter) (n : Nat),
      byRef doc r = some res → Json.getField res "$ref" = some (Json.str r2) →
      byRef doc r2 = some res2 → Counter.visited c r2 = true → r2 ≠ r →
      derefResult doc (n + 2) c (mkRef r) true =
        some (Except.ok (some (circAssign (some res2))))) := by
  constructor
  · intro doc r res c n hby hnr
    have hr : Json.getField (mkRef r) "$ref" = some (Json.str r) := rfl
    simp [derefResult, deref, hr, hby, hnr]
  · intro doc r r2 res res2 c n h1 h2 h3 hv hne
    have hr : Json.getField (mkRef r) "$ref" = some (Json.str r) := rfl
    have hisr : isRef (some res) = true := isRef_of_getField_str res r2 h2
    have hvis2 : Counter.visited (Counter.visit c r) r2 = true := by
      rw [visited_visit_ne c r r2 hne]; exact hv
    simp [derefResult, deref, hr, h1, h2, h3, hisr, hvis2]

theorem C2_witness :
    derefResult exampleChainDoc 2 (Counter.visit counterZero "#/b") (mkRef "#/a") true =
      some (Except.ok (some (circAssign (some (Json.obj [("v", Json.num 1)]))))) :=
  (C2_forceCircular_immediate_only.2) exampleChainDoc "#/a" "#/b"
    (mkRef "#/b") (Json.obj [("v", Json.num 1)]) (Counter.visit counterZero "#/b") 0
    rfl rfl rfl rfl (by decide)

/-
  Termination and marking on reference cycles (claim C1).
-/

theorem getField_circAssign (o : Option Json) :
    Json.getField (circAssign o) "x-circular-ref" = some (Json.bool true) := by
  unfold circAssign
  rw [getField_jsSpread2_good _ _ (by rfl)]
  rfl

theorem chain_deref (doc : Json) (root : String) (resRoot : Json)
    (hroot : byRef doc root = some resRoot) :
    ∀ (ps : List String) (c : Counter) (obj : Json),
      Counter.visited c root = true →
      (∀ p ∈ ps, Counter.visited c p = false) →
      ps.Nodup → root ∉ ps →
      chainLinked doc root ps →
      Json.getField obj "$ref" = some (Json.str (ps.headD root)) →
      ∀ fuel, ps.length + 1 ≤ fuel →
      ∃ c2, deref doc fuel c obj false =
        some (Except.ok (some (circAssign (some resRoot))), c2) := by
  intro ps
  induction ps with
  | nil =>
    intro c obj hvroot _ _ _ _ hobj fuel hfuel
    obtain ⟨m, rfl⟩ : ∃ m, fuel = m + 1 := ⟨fuel - 1, by omega⟩
    refine ⟨Counter.visit c root, ?_⟩
    simp only [List.headD_nil] at hobj
    simp [deref, hobj, hroot, hvroot]
  | cons p rest ih =>
    intro c obj hvroot hunvis hnodup hnotmem hchain hobj fuel hfuel
    obtain ⟨m, rfl⟩ : ∃ m, fuel = m + 1 := ⟨fuel - 1, by omega⟩
    obtain ⟨⟨n0, hbyp, hnref⟩, hchainrest⟩ := hchain
    simp only [List.headD_cons] at hobj
    have hvp : Counter.visited c p = false := hunvis p (List.mem_cons_self p rest)
    have hrootne : root ≠ p := fun h => hnotmem (h ▸ List.mem_cons_self p rest)
    have hpnotinrest : p ∉ rest := (List.nodup_cons.mp hnodup).1
    have hinner := ih (Counter.visit c p) n0
      (by rw [visited_visit_ne c p root hrootne]; exact hvroot)
      (by
        intro q hq
        have hqne : q ≠ p := fun h => hpnotinrest (h ▸ hq)
        rw [visited_visit_ne c p q hqne]
        exact hunvis q (List.mem_cons_of_mem p hq))
      (List.nodup_cons.mp hnodup).2
      (fun h => hnotmem (List.mem_cons_of_mem p h))
      hchainrest hnref m (by simp at hfuel; omega)
    obtain ⟨c2, hc2⟩ := hinner
    refine ⟨exitRefC c2 n0, ?_⟩
    have hisr : isRef (some n0) = true := isRef_of_getField_str n0 _ hnref
    simp [deref, hobj, hbyp, hvp, hisr, hc2]

/-- C1: for every document with a reference cycle — the node at pointer `root`
resolves, possibly through a chain of distinct reference nodes, back to
`root` — dereferencing `{$ref: root}` with forceCircular = false on a fresh
pass terminates (any fuel of at least the chain length plus two suffices) and
returns a fresh copy of the resolved node at `root` extended with the
`x-circular-ref: true` marker; being a copy, the document node itself is
untouched (the embedding is pure and `circAssign` builds a new object). -/
theorem C1_cycle_deref_terminates_marked (doc : Json) (root : String) (rest : List String)
    (hchain : chainLinked doc root (root :: rest))
    (hnodup : (root :: rest).Nodup) :
    ∃ resRoot, byRef doc root = some resRoot ∧
      Json.getField (circAssign (some resRoot)) "x-circular-ref" = some (Json.bool true) ∧
      ∀ fuel, rest.length + 2 ≤ fuel →
        ∃ c2, deref doc fuel counterZero (mkRef root) false =
          some (Except.ok (some (circAssign (some resRoot))), c2) := by
  obtain ⟨⟨n0, hby0, href0⟩, hchainrest⟩ := hchain
  refine ⟨n0, hby0, getField_circAssign (some n0), ?_⟩
  intro fuel hfuel
  obtain ⟨m, rfl⟩ : ∃ m, fuel = m + 1 := ⟨fuel - 1, by omega⟩
  have hr : Json.getField (mkRef root) "$ref" = some (Json.str root) := rfl
  have hv0 : Counter.visited counterZero root = false := by
    simp [Counter.visited, counterZero]
  have hrootnotin : root ∉ rest := (List.nodup_cons.mp hnodup).1
  have hinner := chain_deref doc root n0 hby0 rest (Counter.visit counterZero root) n0
    (by simp [Counter.visited, Counter.visit, counterZero])
    (by
      intro q hq
      have hqne : q ≠ root := fun h => hrootnotin (h ▸ hq)
      rw [visited_visit_ne counterZero root q hqne]
      simp [Counter.visited, counterZero])
    (List.nodup_cons.mp hnodup).2 hrootnotin hchainrest href0 m (by omega)
  obtain ⟨c2, hc2⟩ := hinner
  refine ⟨exitRefC c2 n0, ?_⟩
  have hisr : isRef (some n0) = true := isRef_of_getField_str n0 _ href0
  simp [deref, hr, hby0, hv0, hisr, hc2]

theorem C1_witness :
    ∃ resRoot, byRef exampleSelfLoopDoc "#/a" = some resRoot ∧
      Json.getField (circAssign (some resRoot)) "x-circular-ref" = some (Json.bool true) ∧
      ∃ c2, deref exampleSelfLoopDoc 2 counterZero (mkRef "#/a") false =
        some (Except.ok (some (circAssign (some resRoot))), c2) := by
  obtain ⟨res, h1, h2, h3⟩ := C1_cycle_deref_terminates_marked exampleSelfLoopDoc "#/a" []
    ⟨⟨mkRef "#/a", rfl, rfl⟩, trivial⟩ (by simp)
  exact ⟨res, h1, h2, h3 2 (by decide)⟩

/-
  Field-category behavior of one fold step (claim C4).
-/

theorem goodObj_obj (j : Json) (h : goodObj j = true) :
    ∃ fs, j = Json.obj fs ∧ distinctKeys fs = true := by
  cases j <;> simp_all [goodObj]

theorem getField_setF_of_good (j : Json) (hj : goodObj j = true) (k : String) (v : Json)
    (k2 : String) :
    Json.getField (Json.setF j k v) k2 = if k2 = k then some v else Json.getField j k2 := by
  obtain ⟨fs, rfl, _⟩ := goodObj_obj j hj
  exact getField_setF fs k v k2

theorem getField_stepType (receiver sub : Json) (hrec : goodObj receiver = true) (k : String) :
    Json.getField (stepType receiver sub) k =
      if k = "type" then
        (match Json.getField sub "type" with
         | some t => some t
         | none => Json.getField receiver "type")
      else Json.getField receiver k := by
  cases hst : Json.getField sub "type" with
  | none =>
    simp only [stepType, hst]
    by_cases hk : k = "type" <;> simp [hk]
  | some t =>
    simp only [stepType, hst]
    rw [getField_setF_of_good receiver hrec]

theorem goodObj_stepType (receiver sub : Json) (hrec : goodObj receiver = true) :
    goodObj (stepType receiver sub) = true := by
  cases hst : Json.getField sub "type" with
  | none => simp only [stepType, hst]; exact hrec
  | some t => simp only [stepType, hst]; exact goodObj_setF receiver "type" t hrec

theorem getField_stepProps (receiver sub : Json) (hrec : goodObj receiver = true) (k : String) :
    Json.getField (stepProps receiver sub) k =
      if k = "properties" then
        (match Json.getField sub "properties" with
         | some sProps =>
           some (jsSpread2 (jsOr (Json.getField receiver "properties") (Json.obj [])) sProps)
         | none => Json.getField receiver "properties")
      else Json.getField receiver k := by
  cases hsp : Json.getField sub "properties" with
  | none =>
    simp only [stepProps, hsp]
    by_cases hk : k = "properties" <;> simp [hk]
  | some sp =>
    simp only [stepProps, hsp]
    rw [getField_setF_of_good receiver hrec]

theorem goodObj_stepProps (receiver sub : Json) (hrec : goodObj receiver = true) :
    goodObj (stepProps receiver sub) = true := by
  cases hsp : Json.getField sub "properties" with
  | none => simp only [stepProps, hsp]; exact hrec
  | some sp => simp only [stepProps, hsp]; exact goodObj_setF receiver _ _ hrec

theorem getField_stepReq (receiver sub : Json) (hrec : goodObj receiver = true) (k : String) :
    Json.getField (stepReq receiver sub) k =
      if k = "required" then
        (match Json.getField sub "required" with
         | some sReq =>
           some (jsConcat (jsOr (Json.getField receiver "required") (Json.arr [])) sReq)
         | none => Json.getField receiver "required")
      else Json.getField receiver k := by
  cases hsr : Json.getField sub "required" with
  | none =>
    simp only [stepReq, hsr]
    by_cases hk : k = "required" <;> simp [hk]
  | some sr =>
    simp only [stepReq, hsr]
    rw [getField_setF_of_good receiver hrec]

theorem goodObj_stepReq (receiver sub : Json) (hrec : goodObj receiver = true) :
    goodObj (stepReq receiver sub) = true := by
  cases hsr : Json.getField sub "required" with
  | none => simp only [stepReq, hsr]; exact hrec
  | some sr => simp only [stepReq, hsr]; exact goodObj_setF receiver _ _ hrec

theorem getField_pushParentRef (receiver : Json) (hrec : goodObj receiver = true) (v : Json)
    (k : String) :
    Json.getField (pushParentRef receiver v) k =
      if k = "parentRefs" then
        some (Json.arr (arrayElems ((Json.getField receiver "parentRefs").getD (Json.arr []))
          ++ [v]))
      else Json.getField receiver k := by
  unfold pushParentRef
  rw [getField_setF_of_good receiver hrec]

theorem goodObj_pushParentRef (receiver : Json) (hrec : goodObj receiver = true) (v : Json) :
    goodObj (pushParentRef receiver v) = true :=
  goodObj_setF receiver _ _ hrec

theorem getField_stepRefTitle_other (receiver : Json) (subRef : Option String)
    (hrec : goodObj receiver = true) (k : String)
    (hk1 : k ≠ "parentRefs") (hk2 : k ≠ "title") :
    Json.getField (stepRefTitle receiver subRef) k = Json.getField receiver k := by
  cases subRef with
  | none => rfl
  | some sr =>
    simp only [stepRefTitle]
    have hpush := goodObj_pushParentRef receiver hrec (Json.str sr)
    by_cases hcond : ((Json.getField (pushParentRef receiver (Json.str sr)) "title").isNone
        && isNamedDefinition (some sr)) = true
    · rw [if_pos hcond, getField_setF_of_good _ hpush, if_neg hk2,
        getField_pushParentRef receiver hrec, if_neg hk1]
    · rw [if_neg (by simpa using hcond), getField_pushParentRef receiver hrec, if_neg hk1]

theorem goodObj_stepRefTitle (receiver : Json) (subRef : Option String)
    (hrec : goodObj receiver = true) :
    goodObj (stepRefTitle receiver subRef) = true := by
  cases subRef with
  | none => exact hrec
  | some sr =>
    simp only [stepRefTitle]
    have hpush := goodObj_pushParentRef receiver hrec (Json.str sr)
    by_cases hcond : ((Json.getField (pushParentRef receiver (Json.str sr)) "title").isNone
        && isNamedDefinition (some sr)) = true
    · rw [if_pos hcond]; exact goodObj_setF _ _ _ hpush
    · rw [if_neg (by simpa using hcond)]; exact hpush

theorem propsOk_jsOr_good (receiver : Json) (hrp : propsOk receiver = true) :
    goodObj (jsOr (Json.getField receiver "properties") (Json.obj [])) = true := by
  unfold propsOk at hrp
  cases hf : Json.getField receiver "properties" with
  | none => simp [jsOr, goodObj, distinctKeys]
  | some v =>
    rw [hf] at hrp
    cases v <;> simp_all [jsOr, Json.jsFalsy, goodObj, distinctKeys]

theorem propsFind_jsOr (receiver : Json) (hrp : propsOk receiver = true) (k : String) :
    Json.getField (jsOr (Json.getField receiver "properties") (Json.obj [])) k =
      propsFind receiver k := by
  unfold propsOk at hrp
  unfold propsFind
  cases hf : Json.getField receiver "properties" with
  | none => simp [jsOr, Json.getField, assocFind]
  | some v =>
    rw [hf] at hrp
    cases v <;> simp_all [jsOr, Json.jsFalsy, Json.getField, assocFind]

theorem getField_jsSpread2_nullb (a : Json) (ha : goodObj a = true) (k : String) :
    Json.getField (jsSpread2 a Json.null) k = Json.getField a k := by
  rw [getField_jsSpread2]
  obtain ⟨fs, rfl, hd⟩ := goodObj_obj a ha
  simp only [Json.ownFields, List.reverse_nil, assocFind]
  rw [assocFind_reverse_of_distinct fs hd]
  rfl

/-- C4: one step of the in-order fold over composition branches obeys the
field-category asymmetry of source lines 194-229: a branch's declared type
overwrites the receiver's; `properties` is a shallow per-key union with the
branch winning on collisions (no deep merge); `required` lists are
concatenated receiver-first without deduplication; and every other field not
given dedicated handling (`type`, `properties`, `required`, and the
`parentRefs`/`title` bookkeeping of lines 223-228) keeps the receiver's
pre-existing value on a collision, falling back to the branch's. -/
theorem C4_merge_field_asymmetry (ref : Option String) (receiver sub : Json)
    (subRef : Option String) (result : Json)
    (hrec : goodObj receiver = true) (hsub : goodObj sub = true)
    (hrp : propsOk receiver = true) (hsp : propsOk sub = true)
    (hres : mergeStep ref receiver (subRef, sub) = Except.ok result) :
    (Json.getField result "type" =
      (match Json.getField sub "type" with
       | some t => some t
       | none => Json.getField receiver "type"))
    ∧ (∀ k, propsFind result k =
      (match propsFind sub k with
       | some v => some v
       | none => propsFind receiver k))
    ∧ (∀ xs ys, Json.getField receiver "required" = some (Json.arr xs) →
      Json.getField sub "required" = some (Json.arr ys) →
      Json.getField result "required" = some (Json.arr (xs ++ ys)))
    ∧ (∀ k, k ≠ "type" → k ≠ "properties" → k ≠ "required" → k ≠ "parentRefs" → k ≠ "title" →
      Json.getField result k =
        (match Json.getField receiver k with
         | some v => some v
         | none => Json.getField sub k)) := by
  simp only [mergeStep] at hres
  by_cases hcond : (!(optJsonBeq (Json.getField receiver "type") (Json.getField sub "type"))
      && (Json.getField receiver "type").isSome && (Json.getField sub "type").isSome) = true
  · rw [if_pos hcond] at hres
    exact absurd hres (by simp)
  · rw [if_neg hcond, Except.ok.injEq] at hres
    subst hres
    have hg1 : goodObj (stepType receiver sub) = true := goodObj_stepType receiver sub hrec
    have hg2 : goodObj (stepProps (stepType receiver sub) sub) = true :=
      goodObj_stepProps _ sub hg1
    have hg3 : goodObj (stepReq (stepProps (stepType receiver sub) sub) sub) = true :=
      goodObj_stepReq _ sub hg2
    have hg4 : goodObj
        (jsSpread2 sub (stepReq (stepProps (stepType receiver sub) sub) sub)) = true :=
      goodObj_jsSpread2 _ _
    have h31 : ∀ k, k ≠ "properties" → k ≠ "required" →
        Json.getField (stepReq (stepProps (stepType receiver sub) sub) sub) k =
          Json.getField (stepType receiver sub) k := by
      intro k hk1 hk2
      rw [getField_stepReq _ sub hg2, if_neg hk2, getField_stepProps _ sub hg1, if_neg hk1]
    have h4 : ∀ k,
        Json.getField (jsSpread2 sub (stepReq (stepProps (stepType receiver sub) sub) sub)) k =
          (match Json.getField (stepReq (stepProps (stepType receiver sub) sub) sub) k with
           | some v => some v
           | none => Json.getField sub k) :=
      fun k => getField_jsSpread2_good2 sub _ hsub hg3 k
    have hout : ∀ k, k ≠ "parentRefs" → k ≠ "title" →
        Json.getField (stepRefTitle
            (jsSpread2 sub (stepReq (stepProps (stepType receiver sub) sub) sub)) subRef) k =
          Json.getField
            (jsSpread2 sub (stepReq (stepProps (stepType receiver sub) sub) sub)) k :=
      fun k hk1 hk2 => getField_stepRefTitle_other _ subRef hg4 k hk1 hk2
    refine ⟨?_, ?_, ?_, ?_⟩
    · rw [hout "type" (by decide) (by decide), h4 "type",
        h31 "type" (by decide) (by decide), getField_stepType receiver sub hrec, if_pos rfl]
      cases hst : Json.getField sub "type" with
      | some t => simp
      | none => cases hrt : Json.getField receiver "type" <;> simp
    · intro k
      have hA : goodObj (jsOr (Json.getField receiver "properties") (Json.obj [])) = true :=
        propsOk_jsOr_good receiver hrp
      cases hsp0 : Json.getField sub "properties" with
      | none =>
        have hfin : Json.getField (stepRefTitle
            (jsSpread2 sub (stepReq (stepProps (stepType receiver sub) sub) sub)) subRef)
            "properties" = Json.getField receiver "properties" := by
          rw [hout "properties" (by decide) (by decide), h4 "properties",
            getField_stepReq _ sub hg2, if_neg (by decide),
            getField_stepProps _ sub hg1, if_pos rfl,
            getField_stepType receiver sub hrec, if_neg (by decide)]
          simp only [hsp0]
          cases hrt : Json.getField receiver "properties" <;> simp
        unfold propsFind
        rw [hfin, hsp0]
      | some sp =>
        have hfin : Json.getField (stepRefTitle
            (jsSpread2 sub (stepReq (stepProps (stepType receiver sub) sub) sub)) subRef)
            "properties" =
            some (jsSpread2 (jsOr (Json.getField receiver "properties") (Json.obj [])) sp) := by
          rw [hout "properties" (by decide) (by decide), h4 "properties",
            getField_stepReq _ sub hg2, if_neg (by decide),
            getField_stepProps _ sub hg1, if_pos rfl,
            getField_stepType receiver sub hrec, if_neg (by decide)]
          simp only [hsp0]
        have hLHS : propsFind (stepRefTitle
            (jsSpread2 sub (stepReq (stepProps (stepType receiver sub) sub) sub)) subRef) k =
            Json.getField
              (jsSpread2 (jsOr (Json.getField receiver "properties") (Json.obj [])) sp) k := by
          unfold propsFind
          rw [hfin]
          rfl
        rw [hLHS]
        have hspOk := hsp
        cases sp with
        | null =>
          rw [getField_jsSpread2_nullb _ hA, propsFind_jsOr receiver hrp]
          have hsubnone : propsFind sub k = none := by unfold propsFind; rw [hsp0]
          rw [hsubnone]
        | obj spfs =>
          simp only [propsOk, hsp0] at hspOk
          rw [getField_jsSpread2_good2 _ _ hA (show goodObj (Json.obj spfs) = true from hspOk) k,
            propsFind_jsOr receiver hrp]
          have hsubfind : propsFind sub k = assocFind spfs k := by unfold propsFind; rw [hsp0]
          simp only [Json.getField]
          rw [← hsubfind]
        | bool b =>
          simp only [propsOk, hsp0] at hspOk
          exact absurd hspOk (by simp)
        | num x =>
          simp only [propsOk, hsp0] at hspOk
          exact absurd hspOk (by simp)
        | str s =>
          simp only [propsOk, hsp0] at hspOk
          exact absurd hspOk (by simp)
        | arr xs =>
          simp only [propsOk, hsp0] at hspOk
          exact absurd hspOk (by simp)
    · intro xs ys hxs hys
      rw [hout "required" (by decide) (by decide), h4 "required",
        getField_stepReq _ sub hg2, if_pos rfl,
        getField_stepProps _ sub hg1, if_neg (by decide),
        getField_stepType receiver sub hrec, if_neg (by decide)]
      simp only [hys, hxs]
      simp [jsOr, Json.jsFalsy, jsConcat, arrayElems]
    · intro k hk1 hk2 hk3 hk4 hk5
      rw [hout k hk4 hk5, h4 k, h31 k hk2 hk3, getField_stepType receiver sub hrec, if_neg hk1]

theorem C4_witness :
    mergeStep none exampleReceiver (none, exampleBranch) = Except.ok (Json.obj
      [("type", Json.str "object"),
       ("properties", Json.obj [("a", Json.str "fromBranch"), ("b", Json.obj [])]),
       ("required", Json.arr [Json.str "a", Json.str "a"]),
       ("x", Json.str "receiver"),
       ("y", Json.num 2),
       ("parentRefs", Json.arr [])])
    ∧ Json.getField (Json.obj
      [("type", Json.str "object"),
       ("properties", Json.obj [("a", Json.str "fromBranch"), ("b", Json.obj [])]),
       ("required", Json.arr [Json.str "a", Json.str "a"]),
       ("x", Json.str "receiver"),
       ("y", Json.num 2),
       ("parentRefs", Json.arr [])]) "type" = some (Json.str "object")
    ∧ propsFind (Json.obj
      [("type", Json.str "object"),
       ("properties", Json.obj [("a", Json.str "fromBranch"), ("b", Json.obj [])]),
       ("required", Json.arr [Json.str "a", Json.str "a"]),
       ("x", Json.str "receiver"),
       ("y", Json.num 2),
       ("parentRefs", Json.arr [])]) "a" = some (Json.str "fromBranch")
    ∧ Json.getField (Json.obj
      [("type", Json.str "object"),
       ("properties", Json.obj [("a", Json.str "fromBranch"), ("b", Json.obj [])]),
       ("required", Json.arr [Json.str "a", Json.str "a"]),
       ("x", Json.str "receiver"),
       ("y", Json.num 2),
       ("parentRefs", Json.arr [])]) "required" = some (Json.arr [Json.str "a", Json.str "a"])
    ∧ Json.getField (Json.obj
      [("type", Json.str "object"),
       ("properties", Json.obj [("a", Json.str "fromBranch"), ("b", Json.obj [])]),
       ("required", Json.arr [Json.str "a", Json.str "a"]),
       ("x", Json.str "receiver"),
       ("y", Json.num 2),
       ("parentRefs", Json.arr [])]) "x" = some (Json.str "receiver") := by
  have happ := C4_merge_field_asymmetry none exampleReceiver exampleBranch none
    (Json.obj
      [("type", Json.str "object"),
       ("properties", Json.obj [("a", Json.str "fromBranch"), ("b", Json.obj [])]),
       ("required", Json.arr [Json.str "a", Json.str "a"]),
       ("x", Json.str "receiver"),
       ("y", Json.num 2),
       ("parentRefs", Json.arr [])]) rfl rfl rfl rfl rfl
  exact ⟨rfl, happ.1, happ.2.1 "a",
    happ.2.2.1 [Json.str "a"] [Json.str "a"] rfl rfl,
    happ.2.2.2 "x" (by decide) (by decide) (by decide) (by decide) (by decide)⟩

/-
  parentRefs accumulation and top-level title inference (claims C6 and C10).
-/

theorem keyMem_filter (l : List (String × Json)) (p : String × Json → Bool) (x : String)
    (h : keyMem (l.filter p) x = true) : keyMem l x = true := by
  induction l with
  | nil => simp [keyMem] at h
  | cons q rest ih =>
    show (q.1 == x || rest.any fun r => r.1 == x) = true
    cases h1 : (q.1 == x) with
    | true => rfl
    | false =>
      rw [Bool.false_or]
      by_cases hp : p q = true
      · rw [List.filter_cons_of_pos hp] at h
        simp only [keyMem, List.any_cons, h1, Bool.false_or] at h
        exact ih h
      · rw [List.filter_cons_of_neg hp] at h
        exact ih h

theorem distinctKeys_filter (l : List (String × Json)) (p : String × Json → Bool)
    (h : distinctKeys l = true) : distinctKeys (l.filter p) = true := by
  induction l with
  | nil => exact h
  | cons q rest ih =>
    simp only [distinctKeys, Bool.and_eq_true, Bool.not_eq_true'] at h
    by_cases hp : p q = true
    · rw [List.filter_cons_of_pos hp]
      simp only [distinctKeys, Bool.and_eq_true, Bool.not_eq_true']
      refine ⟨?_, ih h.2⟩
      cases hkm : keyMem (rest.filter p) q.1 with
      | false => rfl
      | true =>
        have hgot := keyMem_filter rest p q.1 hkm
        rw [h.1] at hgot
        exact absurd hgot (by simp)
    · rw [List.filter_cons_of_neg hp]
      exact ih h.2

theorem goodObj_buildReceiver (schema : Json) : goodObj (buildReceiver schema) = true := by
  unfold buildReceiver
  apply goodObj_setF
  show distinctKeys _ = true
  apply distinctKeys_filter
  exact distinctKeys_assignFields [] _ rfl

theorem mergeStep_good (ref : Option String) (receiver : Json) (b : Option String × Json)
    (result : Json) (h : mergeStep ref receiver b = Except.ok result) :
    goodObj result = true := by
  simp only [mergeStep] at h
  by_cases hcond : (!(optJsonBeq (Json.getField receiver "type") (Json.getField b.2 "type"))
      && (Json.getField receiver "type").isSome && (Json.getField b.2 "type").isSome) = true
  · rw [if_pos hcond] at h
    exact absurd h (by simp)
  · rw [if_neg hcond, Except.ok.injEq] at h
    subst h
    exact goodObj_stepRefTitle _ _ (goodObj_jsSpread2 _ _)

theorem mergeStep_parentRefs (ref : Option String) (receiver sub : Json)
    (subRef : Option String) (result : Json) (L : List Json)
    (hrec : goodObj receiver = true)
    (hL : Json.getField receiver "parentRefs" = some (Json.arr L))
    (h : mergeStep ref receiver (subRef, sub) = Except.ok result) :
    Json.getField result "parentRefs" =
      some (Json.arr (L ++ (subRef.map Json.str).toList)) := by
  simp only [mergeStep] at h
  by_cases hcond : (!(optJsonBeq (Json.getField receiver "type") (Json.getField sub "type"))
      && (Json.getField receiver "type").isSome && (Json.getField sub "type").isSome) = true
  · rw [if_pos hcond] at h
    exact absurd h (by simp)
  · rw [if_neg hcond, Except.ok.injEq] at h
    subst h
    have hg1 : goodObj (stepType receiver sub) = true := goodObj_stepType receiver sub hrec
    have hg2 : goodObj (stepProps (stepType receiver sub) sub) = true :=
      goodObj_stepProps _ sub hg1
    have hg3 : goodObj (stepReq (stepProps (stepType receiver sub) sub) sub) = true :=
      goodObj_stepReq _ sub hg2
    have hg4 : goodObj
        (jsSpread2 sub (stepReq (stepProps (stepType receiver sub) sub) sub)) = true :=
      goodObj_jsSpread2 _ _
    have h3 : Json.getField (stepReq (stepProps (stepType receiver sub) sub) sub)
        "parentRefs" = some (Json.arr L) := by
      rw [getField_stepReq _ sub hg2, if_neg (by decide),
        getField_stepProps _ sub hg1, if_neg (by decide),
        getField_stepType receiver sub hrec, if_neg (by decide)]
      exact hL
    have h4 : Json.getField
        (jsSpread2 sub (stepReq (stepProps (stepType receiver sub) sub) sub)) "parentRefs" =
        some (Json.arr L) := by
      rw [getField_jsSpread2_good sub _ hg3 "parentRefs", h3]
    cases subRef with
    | none => simpa using h4
    | some sr =>
      simp only [stepRefTitle]
      have hpushget : Json.getField
          (pushParentRef (jsSpread2 sub (stepReq (stepProps (stepType receiver sub) sub) sub))
            (Json.str sr)) "parentRefs" = some (Json.arr (L ++ [Json.str sr])) := by
        rw [getField_pushParentRef _ hg4, if_pos rfl, h4]
        rfl
      have hpushgood : goodObj
          (pushParentRef (jsSpread2 sub (stepReq (stepProps (stepType receiver sub) sub) sub))
            (Json.str sr)) = true := goodObj_pushParentRef _ hg4 _
      by_cases hcond2 : ((Json.getField
          (pushParentRef (jsSpread2 sub (stepReq (stepProps (stepType receiver sub) sub) sub))
            (Json.str sr)) "title").isNone && isNamedDefinition (some sr)) = true
      · rw [if_pos hcond2, getField_setF_of_good _ hpushgood, if_neg (by decide), hpushget]
        simp
      · rw [if_neg hcond2, hpushget]
        simp

theorem mergeFold_good (ref : Option String) (pairs : List (Option String × Json)) :
    ∀ (receiver merged : Json), goodObj receiver = true →
      mergeFold ref receiver pairs = Except.ok merged → goodObj merged = true := by
  induction pairs with
  | nil =>
    intro receiver merged hrec h
    simp only [mergeFold, Except.ok.injEq] at h
    subst h
    exact hrec
  | cons b rest ih =>
    intro receiver merged hrec h
    simp only [mergeFold] at h
    cases hstep : mergeStep ref receiver b with
    | error e =>
      simp only [hstep] at h
      exact Except.noConfusion h
    | ok r2 =>
      simp only [hstep] at h
      exact ih r2 merged (mergeStep_good ref receiver b r2 hstep) h

theorem mergeFold_parentRefs (ref : Option String) (pairs : List (Option String × Json)) :
    ∀ (receiver merged : Json) (L : List Json), goodObj receiver = true →
      Json.getField receiver "parentRefs" = some (Json.arr L) →
      mergeFold ref receiver pairs = Except.ok merged →
      Json.getField merged "parentRefs" =
        some (Json.arr (L ++ pairs.filterMap (fun q => q.1.map Json.str))) := by
  induction pairs with
  | nil =>
    intro receiver merged L hrec hL h
    simp only [mergeFold, Except.ok.injEq] at h
    subst h
    simpa using hL
  | cons b rest ih =>
    intro receiver merged L hrec hL h
    simp only [mergeFold] at h
    cases hstep : mergeStep ref receiver b with
    | error e =>
      simp only [hstep] at h
      exact Except.noConfusion h
    | ok r2 =>
      simp only [hstep] at h
      have hg2 := mergeStep_good ref receiver b r2 hstep
      obtain ⟨sr, sub⟩ := b
      have h2L := mergeStep_parentRefs ref receiver sub sr r2 L hrec hL hstep
      have hrest := ih r2 merged (L ++ (sr.map Json.str).toList) hg2 h2L h
      rw [hrest]
      cases sr <;> simp

/-- C6: for every successful merge of a schema with a composition list, the
returned schema's `parentRefs` is exactly the depth-first, in-order
accumulation of the branch traversal — first the parentRefs collected from
each branch's own recursive merge, branch by branch (the `prs` produced by
the traversal of source lines 183-192), then, appended during the fold in
branch order, the pointer of every branch that was itself a reference. -/
theorem C6_parentRefs_accumulation (doc : Json) (fuel : Nat) (c : Counter) (schema : Json)
    (branches : List Json) (ref : Option String) (fc : Bool)
    (pairs : List (Option String × Json)) (prs : List Json) (merged : Json)
    (hallOf : Json.getField schema "allOf" = some (Json.arr branches))
    (hbr : mergeBranchesOk doc fuel c branches fc = some (pairs, prs))
    (hmerge : mergeAllOfResult doc (fuel + 1) c (some schema) ref fc = some (Except.ok merged)) :
    Json.getField merged "parentRefs" =
      some (Json.arr (prs ++ pairs.filterMap (fun q => q.1.map Json.str))) := by
  unfold mergeBranchesOk at hbr
  simp only [mergeAllOfResult, mergeAllOf, hallOf] at hmerge
  cases hw : mergeBranchesWith doc (mergeAllOf doc fuel) fuel c branches fc with
  | none =>
    simp only [hw] at hbr
    exact Option.noConfusion hbr
  | some x =>
    obtain ⟨e, c1⟩ := x
    cases e with
    | error msg =>
      simp only [hw] at hbr
      exact Option.noConfusion hbr
    | ok pr =>
      obtain ⟨pairs0, prs0⟩ := pr
      simp only [hw, Option.some.injEq, Prod.mk.injEq] at hbr
      obtain ⟨hp1, hp2⟩ := hbr
      subst hp1
      subst hp2
      simp only [hw, Option.map_some'] at hmerge
      cases hfold : mergeFold ref
          (Json.setF (buildReceiver schema) "parentRefs" (Json.arr prs0)) pairs0 with
      | error e2 =>
        simp only [hfold, Option.map_some', Option.some.injEq] at hmerge
        exact Except.noConfusion hmerge
      | ok m =>
        simp only [hfold, Option.map_some', Option.some.injEq, Except.ok.injEq] at hmerge
        have hrecvgood : goodObj
            (Json.setF (buildReceiver schema) "parentRefs" (Json.arr prs0)) = true :=
          goodObj_setF _ _ _ (goodObj_buildReceiver schema)
        have hrecvL : Json.getField
            (Json.setF (buildReceiver schema) "parentRefs" (Json.arr prs0)) "parentRefs" =
            some (Json.arr prs0) := by
          obtain ⟨fs, heq, _⟩ := goodObj_obj _ (goodObj_buildReceiver schema)
          rw [heq, getField_setF, if_pos rfl]
        have hmergedL := mergeFold_parentRefs ref pairs0 _ m prs0 hrecvgood hrecvL hfold
        have hmgood := mergeFold_good ref pairs0 _ m hrecvgood hfold
        subst hmerge
        by_cases hcond : ((Json.getField schema "title").isNone && isNamedDefinition ref) = true
        · rw [if_pos hcond, getField_setF_of_good m hmgood, if_neg (by decide)]
          exact hmergedL
        · rw [if_neg hcond]
          exact hmergedL

theorem C6_witness :
    Json.getField (Json.obj
      [("type", Json.str "object"),
       ("parentRefs", Json.arr [Json.str "#/components/schemas/C",
          Json.str "#/components/schemas/B"]),
       ("title", Json.str "B")]) "parentRefs" =
      some (Json.arr [Json.str "#/components/schemas/C",
        Json.str "#/components/schemas/B"]) :=
  C6_parentRefs_accumulation exampleNestedDoc 2 counterZero exampleNestedSchema
    [mkRef "#/components/schemas/B"] none false
    [(some "#/components/schemas/B", Json.obj
      [("type", Json.str "object"),
       ("parentRefs", Json.arr [Json.str "#/components/schemas/C"]),
       ("title", Json.str "B")])]
    [Json.str "#/components/schemas/C"]
    (Json.obj
      [("type", Json.str "object"),
       ("parentRefs", Json.arr [Json.str "#/components/schemas/C",
          Json.str "#/components/schemas/B"]),
       ("title", Json.str "B")])
    rfl rfl rfl

/-- C10: when the input schema has a composition list and no title of its own
and the top-level pointer argument names a first-class reusable definition,
the merged schema's title is the base name of that top-level pointer; the
assignment of source lines 231-234 runs after the branch fold and is
conditioned on the original schema's title, so it overrides any title the
fold inferred from a named branch reference. -/
theorem C10_title_from_top_ref (doc : Json) (fuel : Nat) (c : Counter) (schema : Json)
    (branches : List Json) (refp : String) (fc : Bool) (merged : Json)
    (hallOf : Json.getField schema "allOf" = some (Json.arr branches))
    (htitle : Json.getField schema "title" = none)
    (hnamed : isNamedDefinition (some refp) = true)
    (hmerge : mergeAllOfResult doc (fuel + 1) c (some schema) (some refp) fc =
      some (Except.ok merged)) :
    Json.getField merged "title" = some (Json.str (JsonPointer.baseName refp)) := by
  simp only [mergeAllOfResult, mergeAllOf, hallOf] at hmerge
  cases hw : mergeBranchesWith doc (mergeAllOf doc fuel) fuel c branches fc with
  | none =>
    simp only [hw] at hmerge
    exact Option.noConfusion hmerge
  | some x =>
    obtain ⟨e, c1⟩ := x
    cases e with
    | error msg =>
      simp only [hw, Option.map_some', Option.some.injEq] at hmerge
      exact Except.noConfusion hmerge
    | ok pr =>
      obtain ⟨pairs, prs⟩ := pr
      simp only [hw, Option.map_some'] at hmerge
      cases hfold : mergeFold (some refp)
          (Json.setF (buildReceiver schema) "parentRefs" (Json.arr prs)) pairs with
      | error e2 =>
        simp only [hfold, Option.map_some', Option.some.injEq] at hmerge
        exact Except.noConfusion hmerge
      | ok m =>
        simp only [hfold, Option.map_some', Option.some.injEq, Except.ok.injEq] at hmerge
        have hcond : ((Json.getField schema "title").isNone
            && isNamedDefinition (some refp)) = true := by
          rw [htitle, hnamed]
          rfl
        have hmgood := mergeFold_good (some refp) pairs _ m
          (goodObj_setF _ _ _ (goodObj_buildReceiver schema)) hfold
        subst hmerge
        rw [if_pos hcond, getField_setF_of_good m hmgood, if_pos rfl]
        rfl

theorem C10_witness :
    Json.getField (Json.obj
      [("title", Json.str "Named"), ("type", Json.str "object"),
       ("parentRefs", Json.arr [])]) "title" = some (Json.str "Named") :=
  C10_title_from_top_ref (Json.obj []) 1 counterZero exampleTitledBranchSchema
    [Json.obj [("title", Json.str "Branchy"), ("type", Json.str "object")]]
    "#/components/schemas/Named" false
    (Json.obj
      [("title", Json.str "Named"), ("type", Json.str "object"),
       ("parentRefs", Json.arr [])])
    rfl rfl rfl rfl

/-
  findDerived returns exactly the derived definitions (claim C7).
-/

theorem findRefMatch_eval (refs : List String) (branches : List Json)
    (h : ∀ b ∈ branches, b ≠ Json.null) :
    findRefMatch refs branches = Except.ok (branches.any (fun b =>
      match Json.getField b "$ref" with
      | some (Json.str x) => refs.contains x
      | _ => false)) := by
  induction branches with
  | nil => rfl
  | cons b rest ih =>
    have hb : b ≠ Json.null := h b (List.mem_cons_self b rest)
    have hrest := ih (fun q hq => h q (List.mem_cons_of_mem b hq))
    cases b with
    | null => exact absurd rfl hb
    | bool x =>
      have hg : Json.getField (Json.bool x) "$ref" = none := rfl
      simp [findRefMatch, hg, List.any_cons, hrest]
    | num x =>
      have hg : Json.getField (Json.num x) "$ref" = none := rfl
      simp [findRefMatch, hg, List.any_cons, hrest]
    | str s =>
      have hg : Json.getField (Json.str s) "$ref" = none := rfl
      simp [findRefMatch, hg, List.any_cons, hrest]
    | arr xs =>
      have hg : Json.getField (Json.arr xs) "$ref" = none := rfl
      simp [findRefMatch, hg, List.any_cons, hrest]
    | obj fs =>
      cases hg : Json.getField (Json.obj fs) "$ref" with
      | none => simp [findRefMatch, hg, List.any_cons, hrest]
      | some v =>
        cases v with
        | str s =>
          simp only [findRefMatch, hg, List.any_cons]
          cases hc : refs.contains s with
          | true =>
            rw [if_pos rfl]
            simp
          | false =>
            rw [if_neg (by simp), hrest]
            simp
        | null => simp [findRefMatch, hg, List.any_cons, hrest]
        | bool y => simp [findRefMatch, hg, List.any_cons, hrest]
        | num y => simp [findRefMatch, hg, List.any_cons, hrest]
        | arr ys => simp [findRefMatch, hg, List.any_cons, hrest]
        | obj gs => simp [findRefMatch, hg, List.any_cons, hrest]

theorem findDerivedLoop_eval (doc : Json) (fuel : Nat) (refs : List String) :
    ∀ (defs : List (String × Json)) (c : Counter) (acc : List (String × String)),
      defsInlineOk defs = true →
      findDerivedLoop doc (fuel + 1) refs c defs acc =
        some (Except.ok (defs.foldl (fun a p =>
          if declaresDerived refs p.2 then setAssoc a ("#/components/schemas/" ++ p.1) p.1
          else a) acc), c) := by
  intro defs
  induction defs with
  | nil => intro c acc _; rfl
  | cons d rest ih =>
    intro c acc hok
    obtain ⟨defName, defVal⟩ := d
    simp only [defsInlineOk, List.all_cons, Bool.and_eq_true] at hok
    obtain ⟨⟨href, hallOfOk⟩, hrest⟩ := hok
    have hrest2 : defsInlineOk rest = true := hrest
    have hnone : Json.getField defVal "$ref" = none := by
      cases hgf : Json.getField defVal "$ref" with
      | none => rfl
      | some v => rw [hgf] at href; simp at href
    have hderef : deref doc (fuel + 1) c defVal false = some (Except.ok (some defVal), c) := by
      simp only [deref, hnone]
    cases hallOf : Json.getField defVal "allOf" with
    | none =>
      simp only [findDerivedLoop, hderef, hallOf]
      rw [ih c acc hrest2, List.foldl_cons]
      congr 1
      have hd : declaresDerived refs defVal = false := by
        simp only [declaresDerived, hallOf]
      simp [hd]
    | some v =>
      simp only [allOfOk, hallOf] at hallOfOk
      cases v with
      | arr bs =>
        have hnonull : ∀ b ∈ bs, b ≠ Json.null := by
          intro b hbmem
          have := List.all_eq_true.mp hallOfOk b hbmem
          cases b <;> simp_all
        simp only [findDerivedLoop, hderef, hallOf]
        rw [findRefMatch_eval refs bs hnonull]
        cases hany : bs.any (fun b =>
            match Json.getField b "$ref" with
            | some (Json.str x) => refs.contains x
            | _ => false) with
        | true =>
          simp only [hany]
          rw [ih c _ hrest2, List.foldl_cons]
          congr 1
          have hd : declaresDerived refs defVal = true := by
            simp only [declaresDerived, hallOf]
            exact hany
          simp [hd]
        | false =>
          simp only [hany]
          rw [ih c acc hrest2, List.foldl_cons]
          congr 1
          have hd : declaresDerived refs defVal = false := by
            simp only [declaresDerived, hallOf]
            exact hany
          simp [hd]
      | null => exact absurd hallOfOk (by simp)
      | bool y => exact absurd hallOfOk (by simp)
      | num y => exact absurd hallOfOk (by simp)
      | str s => exact absurd hallOfOk (by simp)
      | obj gs => exact absurd hallOfOk (by simp)

/-- C7: over a document whose named top-level schema definitions are inline
values with wellformed composition lists, `findDerived(targetPointers)`
returns exactly the mapping described by the spec: an entry
`#/components/schemas/<name> -> <name>` for each definition whose composition
list has a Reference branch with a pointer in `targetPointers`, and no entry
for any other definition. -/
theorem C7_findDerived_exact (doc : Json) (fuel : Nat) (c : Counter) (refs : List String)
    (defs : List (String × Json))
    (hschemas : schemasOf doc = Json.obj defs)
    (hok : defsInlineOk defs = true) :
    findDerived doc (fuel + 1) c refs = some (Except.ok (findDerivedSpec defs refs), c) := by
  unfold findDerived findDerivedSpec
  rw [hschemas]
  exact findDerivedLoop_eval doc fuel refs defs c [] hok

theorem C7_witness :
    findDerived exampleDerivedDoc 1 counterZero ["#/components/schemas/Base"] =
      some (Except.ok [("#/components/schemas/Derived1", "Derived1")], counterZero) :=
  C7_findDerived_exact exampleDerivedDoc 0 counterZero ["#/components/schemas/Base"]
    [("Derived1", Json.obj [("allOf", Json.arr [mkRef "#/components/schemas/Base"])]),
     ("Plain", Json.obj [("type", Json.str "object")]),
     ("Derived2", Json.obj [("allOf", Json.arr [Json.obj [("type", Json.str "string")]])])]
    rfl rfl
